import Mathlib

/-!
Verification of the Tetris engine in `game_logic.py`.

The engine is embedded shallowly: the mutable `TetrisGame` object becomes a
structure, each method becomes a function returning the updated state together
with the method's return value, and the two unbounded `while` loops
(`hard_drop`, `get_ghost_position`) become structurally recursive functions on
an explicit step budget that is provably never exhausted.

Pieces are always built from the `TETROMINOS` catalog (by `_generate_random_piece`,
`_spawn_new_piece` and `hold_piece`), so a piece is represented by its kind, and
`shape` / `rotations` are the catalog lookups.  Randomness (`random.choice`) is
modelled by passing the freshly generated piece kind as an explicit argument to
the operations that consume one.  Cells hold `0`/`1` in Python and are tested
for truthiness; they are embedded as `Bool`.
-/

/-- The seven tetromino kinds, the keys of `TETROMINOS`. -/
inductive PieceKind where
  | I | O | T | S | Z | J | L
deriving DecidableEq, Repr

/-- `TETROMINOS[k]['shape']` (the rotation-0 grid), cells as booleans. -/
def shape : PieceKind → List (List Bool)
  | .I => [[true, true, true, true]]
  | .O => [[true, true], [true, true]]
  | .T => [[false, true, false], [true, true, true]]
  | .S => [[false, true, true], [true, true, false]]
  | .Z => [[true, true, false], [false, true, true]]
  | .J => [[true, false, false], [true, true, true]]
  | .L => [[false, false, true], [true, true, true]]

/-- `TETROMINOS[k]['rotations']`, cells as booleans. -/
def rotations : PieceKind → List (List (List Bool))
  | .I => [[[true, true, true, true]],
           [[true], [true], [true], [true]]]
  | .O => [[[true, true], [true, true]]]
  | .T => [[[false, true, false], [true, true, true]],
           [[true, false], [true, true], [true, false]],
           [[true, true, true], [false, true, false]],
           [[false, true], [true, true], [false, true]]]
  | .S => [[[false, true, true], [true, true, false]],
           [[true, false], [true, true], [false, true]]]
  | .Z => [[[true, true, false], [false, true, true]],
           [[false, true], [true, true], [true, false]]]
  | .J => [[[true, false, false], [true, true, true]],
           [[true, true], [true, false], [true, false]],
           [[true, true, true], [false, false, true]],
           [[false, true], [false, true], [true, true]]]
  | .L => [[[false, false, true], [true, true, true]],
           [[true, false], [true, false], [true, true]],
           [[true, true, true], [true, false, false]],
           [[true, true], [false, true], [false, true]]]

/-- `piece['rotations'][rotation % len(piece['rotations'])]`. -/
def getRotShape (pk : PieceKind) (rot : Nat) : List (List Bool) :=
  (rotations pk).getD (rot % (rotations pk).length) []

/-- BOARD_WIDTH = 10. -/
def BOARD_WIDTH : Int := 10

/-- BOARD_HEIGHT = 20. -/
def BOARD_HEIGHT : Int := 20

/-- `self.board[y][x]` truthiness; only consulted by the engine after the
bounds guards have ensured `0 ≤ x < 10` and `0 ≤ y < 20`. -/
def boardCell (b : List (List Bool)) (x y : Int) : Bool :=
  (b.getD y.toNat []).getD x.toNat false

/-- The per-cell test of `_is_valid_position` (lines 137-142): the cell at
absolute `(x, y)` passes unless it is out of the left/right/bottom bounds, or
lies on the board (`y ≥ 0`) and the board cell there is occupied. -/
def cellOk (b : List (List Bool)) (x y : Int) : Bool :=
  !(decide (x < 0) || decide (BOARD_WIDTH ≤ x) || decide (BOARD_HEIGHT ≤ y)) &&
  !(decide (0 ≤ y) && boardCell b x y)

/-- The inner `for col in range(len(shape[row]))` loop of `_is_valid_position`:
`c` is the column index of the head of `cells`; `y` is already `pos.y + row`. -/
def rowValid (b : List (List Bool)) (px y : Int) : Nat → List Bool → Bool
  | _, [] => true
  | c, cell :: rest =>
      (!cell || cellOk b (px + (c : Int)) y) && rowValid b px y (c + 1) rest

/-- The outer `for row in range(len(shape))` loop of `_is_valid_position`:
`r` is the row index of the head of `rows`. -/
def shapeValid (b : List (List Bool)) (px py : Int) : Nat → List (List Bool) → Bool
  | _, [] => true
  | r, row :: rest =>
      rowValid b px (py + (r : Int)) 0 row && shapeValid b px py (r + 1) rest

/-- `TetrisGame._is_valid_position`, reading the board, piece, offset and
rotation as arguments (the Python method reads them from `self` or from its
keyword arguments).  Pure: the source method only reads state. -/
def is_valid_position (b : List (List Bool)) (pk : PieceKind) (px py : Int)
    (rot : Nat) : Bool :=
  shapeValid b px py 0 (getRotShape pk rot)

example : is_valid_position (List.replicate 20 (List.replicate 10 false)) .O 4 0 0 = true := by
  decide

example : is_valid_position (List.replicate 20 (List.replicate 10 false)) .O 9 0 0 = false := by
  decide

example : is_valid_position (List.replicate 20 (List.replicate 10 false)) .O 4 19 0 = false := by
  decide

example : is_valid_position (List.replicate 20 (List.replicate 10 false)) .O 4 (-5) 0 = true := by
  decide

/-- The mutable state of a `TetrisGame` object.  `current_piece`, `next_piece`
and `held_piece` are piece kinds (the Python dicts are always rebuilt verbatim
from the `TETROMINOS` catalog); `piece_position` is split into `pos_x`/`pos_y`. -/
@[ext]
structure TetrisGame where
  board : List (List Bool)
  score : Nat
  lines_cleared : Nat
  level : Nat
  current_piece : PieceKind
  next_piece : PieceKind
  held_piece : Option PieceKind
  pos_x : Int
  pos_y : Int
  rotation : Nat
  can_hold : Bool
deriving DecidableEq, Repr

/-- `TetrisGame._spawn_new_piece`.  `np` is the piece returned by the call to
`_generate_random_piece` that refills the lookahead slot.  Returns the mutated
state and the method's boolean (False = game over). -/
def _spawn_new_piece (g : TetrisGame) (np : PieceKind) : TetrisGame × Bool :=
  let piece_width := ((shape g.next_piece).getD 0 []).length
  let g' : TetrisGame :=
    { g with current_piece := g.next_piece, next_piece := np,
             rotation := 0, can_hold := true,
             pos_x := BOARD_WIDTH / 2 - (piece_width : Int) / 2, pos_y := 0 }
  (g', is_valid_position g'.board g'.current_piece g'.pos_x g'.pos_y g'.rotation)

/-- `TetrisGame.move_piece`. -/
def move_piece (g : TetrisGame) (dx dy : Int) : TetrisGame × Bool :=
  let nx := g.pos_x + dx
  let ny := g.pos_y + dy
  if is_valid_position g.board g.current_piece nx ny g.rotation then
    ({ g with pos_x := nx, pos_y := ny }, true)
  else
    (g, false)

/-- The `for kick_x in [-1, 1, -2, 2]` loop of `rotate_piece`. -/
def rotateKickLoop (g : TetrisGame) (new_rotation : Nat) :
    List Int → TetrisGame × Bool
  | [] => (g, false)
  | kick_x :: rest =>
      if is_valid_position g.board g.current_piece (g.pos_x + kick_x) g.pos_y
          new_rotation then
        ({ g with rotation := new_rotation, pos_x := g.pos_x + kick_x }, true)
      else
        rotateKickLoop g new_rotation rest

/-- `TetrisGame.rotate_piece`. -/
def rotate_piece (g : TetrisGame) : TetrisGame × Bool :=
  let new_rotation := (g.rotation + 1) % (rotations g.current_piece).length
  if is_valid_position g.board g.current_piece g.pos_x g.pos_y new_rotation then
    ({ g with rotation := new_rotation }, true)
  else
    rotateKickLoop g new_rotation [-1, 1, -2, 2]

/-- `TetrisGame.drop_piece`. -/
def drop_piece (g : TetrisGame) : TetrisGame × Bool :=
  move_piece g 0 1

/-- `self.board[y][x] = 1`.  The engine only ever calls this with
`0 ≤ x < 10` and `0 ≤ y < 20` (the write targets come from spawn positions or
validated positions); for such indices this is exactly the Python list
assignment.  (Python would raise for `x ≥ 10`/`y ≥ 20` and wrap small negative
indices; those calls are unreachable and modelled as no-ops/clamps.) -/
def setBoardCell (b : List (List Bool)) (x y : Int) : List (List Bool) :=
  b.set y.toNat ((b.getD y.toNat []).set x.toNat true)

/-- The inner `for col` loop of the placement phase of `_place_piece`:
writes every truthy cell with `board_y = y ≥ 0` onto the board. -/
def placeRowCells (px y : Int) : List (List Bool) → Nat → List Bool → List (List Bool)
  | b, _, [] => b
  | b, c, cell :: rest =>
      placeRowCells px y
        (if cell && decide (0 ≤ y) then setBoardCell b (px + (c : Int)) y else b)
        (c + 1) rest

/-- The outer `for row` loop of the placement phase of `_place_piece`. -/
def placeShapeRows (px py : Int) : List (List Bool) → Nat → List (List Bool) → List (List Bool)
  | b, _, [] => b
  | b, r, row :: rest =>
      placeShapeRows px py (placeRowCells px (py + (r : Int)) b 0 row) (r + 1) rest

/-- An empty board row, `[0 for _ in range(BOARD_WIDTH)]`. -/
def emptyRow : List Bool := List.replicate 10 false

/-- `all(self.board[row])`. -/
def rowFull (r : List Bool) : Bool := r.all id

/-- `TetrisGame._clear_lines`, acting on the board; returns the new board and
the return value `len(lines_to_clear)`.  `lines_to_clear` is collected by
scanning rows `0..19` in order, so it is ascending and
`sorted(lines_to_clear, reverse=True)` is its reverse.  Each loop iteration
does `del self.board[row]` then `self.board.insert(0, empty_row)`. -/
def _clear_lines (b : List (List Bool)) : List (List Bool) × Nat :=
  let lines_to_clear := (List.range 20).filter (fun row => rowFull (b.getD row []))
  let b' := lines_to_clear.reverse.foldl
      (fun bb row => emptyRow :: bb.eraseIdx row) b
  (b', lines_to_clear.length)

/-- The score table `[0, 40, 100, 300, 1200]`. -/
def scoreTable : List Nat := [0, 40, 100, 300, 1200]

/-- The scoring expression `[0, 40, 100, 300, 1200][lines_cleared] * self.level`
of `_place_piece` (line 211).  Python list indexing raises `IndexError` out of
range; that is `none`. -/
def scoringStep (lines_cleared level : Nat) : Option Nat :=
  (scoreTable.get? lines_cleared).map (fun p => p * level)

/-- The tail of `_place_piece`: spawn the next piece, return `-1` on game over
and the cleared-line count otherwise. -/
def placeSpawn (g : TetrisGame) (np : PieceKind) (n : Nat) : TetrisGame × Option Int :=
  let s := _spawn_new_piece g np
  if s.2 then (s.1, some (n : Int)) else (s.1, some (-1))

/-- `TetrisGame._place_piece`.  `np` is the random piece consumed by the
`_spawn_new_piece` call at the end.  The result value is `some r` for a normal
return `r` (lines cleared, or `-1` for game over) and `none` when the scoring
lookup raises `IndexError` (more than 4 lines cleared); in the `none` case the
state carries the mutations performed before the raise. -/
def _place_piece (g : TetrisGame) (np : PieceKind) : TetrisGame × Option Int :=
  let shp := getRotShape g.current_piece g.rotation
  let b1 := placeShapeRows g.pos_x g.pos_y g.board 0 shp
  let cl := _clear_lines b1
  let g1 := { g with board := cl.1 }
  if 0 < cl.2 then
    match scoringStep cl.2 g1.level with
    | none => (g1, none)
    | some points =>
        let g2 := { g1 with score := g1.score + points,
                            lines_cleared := g1.lines_cleared + cl.2 }
        let g3 := { g2 with level := g2.lines_cleared / 10 + 1 }
        placeSpawn g3 np cl.2
  else
    placeSpawn g1 np cl.2

/-- Step budget for the `while self.drop_piece()` loop of `hard_drop`: a
successful single-step drop needs the new row to be valid, which (as proved
below) forces `pos_y < 20`, so the loop runs at most `(20 - pos_y) + 1` times. -/
def dropFuel (g : TetrisGame) : Nat := (20 - g.pos_y).toNat + 1

/-- The `while self.drop_piece(): drop_distance += 1` loop of `hard_drop`,
on an explicit step budget (proved sufficient below). -/
def hardDropLoop : TetrisGame → Nat → Nat → TetrisGame × Nat
  | g, drop_distance, 0 => (g, drop_distance)
  | g, drop_distance, fuel + 1 =>
      let r := drop_piece g
      if r.2 then hardDropLoop r.1 (drop_distance + 1) fuel
      else (r.1, drop_distance)

/-- `TetrisGame.hard_drop`.  `np` is the random piece consumed by the spawn
inside `_place_piece`. -/
def hard_drop (g : TetrisGame) (np : PieceKind) : TetrisGame × Option Int :=
  let r := hardDropLoop g 0 (dropFuel g)
  let g2 := { r.1 with score := r.1.score + r.2 * 2 }
  _place_piece g2 np

/-- `TetrisGame.hold_piece`.  `np` is the piece produced by
`_generate_random_piece` when the hold slot was empty (in the swap branch the
source consumes no randomness and `np` is unused). -/
def hold_piece (g : TetrisGame) (np : PieceKind) : TetrisGame × Bool :=
  if !g.can_hold then (g, false)
  else
    let g1 : TetrisGame :=
      match g.held_piece with
      | none =>
          { g with held_piece := some g.current_piece,
                   current_piece := g.next_piece, next_piece := np }
      | some hp =>
          { g with current_piece := hp, held_piece := some g.current_piece }
    let piece_width := ((shape g1.current_piece).getD 0 []).length
    ({ g1 with rotation := 0, can_hold := false,
               pos_x := BOARD_WIDTH / 2 - (piece_width : Int) / 2, pos_y := 0 },
     true)

/-- Step budget for the `while True` loop of `get_ghost_position` (proved
sufficient below). -/
def ghostFuel (g : TetrisGame) : Nat := (20 - g.pos_y).toNat + 1

/-- The `while True` loop of `get_ghost_position`: starting at row `y`, return
the first row at which the piece's position is invalid (the loop breaks there).
Runs on an explicit step budget (proved sufficient below). -/
def ghostFindY (b : List (List Bool)) (pk : PieceKind) (px : Int) (rot : Nat) :
    Int → Nat → Int
  | y, 0 => y
  | y, fuel + 1 =>
      if is_valid_position b pk px y rot then ghostFindY b pk px rot (y + 1) fuel
      else y

/-- `TetrisGame.get_ghost_position`.  The source only writes to the local copy
`temp_pos`, never to `self`; accordingly the embedded state component of the
result is the input state itself. -/
def get_ghost_position (g : TetrisGame) : (Int × Int) × TetrisGame :=
  let ghost_y := ghostFindY g.board g.current_piece g.pos_x g.rotation
      g.pos_y (ghostFuel g)
  ((g.pos_x, ghost_y - 1), g)

/-- `TetrisGame.__init__`: empty board, zero score/lines, level 1, generate the
first lookahead piece `p1`, then spawn (consuming a second random piece `p2`).
The pre-spawn `current_piece` field (None in Python) is irrelevant: spawn
overwrites it. -/
def initGame (p1 p2 : PieceKind) : TetrisGame :=
  (_spawn_new_piece
    { board := List.replicate 20 (List.replicate 10 false)
      score := 0, lines_cleared := 0, level := 1
      current_piece := p1, next_piece := p1, held_piece := none
      pos_x := 0, pos_y := 0, rotation := 0, can_hold := true } p2).1

/-- One public operation of the engine, with the random piece kinds an
operation consumes attached. -/
inductive Op where
  | move (dx dy : Int)
  | rotate
  | drop
  | hardDrop (np : PieceKind)
  | hold (np : PieceKind)
  | ghost
  | snapshot

/-- The state after running one public operation (`get_game_state` only reads
fields, so the snapshot operation leaves the state unchanged). -/
def applyOp (g : TetrisGame) : Op → TetrisGame
  | .move dx dy => (move_piece g dx dy).1
  | .rotate => (rotate_piece g).1
  | .drop => (drop_piece g).1
  | .hardDrop np => (hard_drop g np).1
  | .hold np => (hold_piece g np).1
  | .ghost => (get_ghost_position g).2
  | .snapshot => g

example : (initGame .O .I).pos_x = 4 := by decide

example : (hard_drop (initGame .O .I) .T).2 = some 0 := by decide

example : ((get_ghost_position (initGame .O .I)).1) = (4, 18) := by decide

/-! ### Characterization of `_is_valid_position` -/

theorem cellOk_eq_false_iff (b : List (List Bool)) (x y : Int) :
    cellOk b x y = false ↔
      (x < 0 ∨ BOARD_WIDTH ≤ x ∨ BOARD_HEIGHT ≤ y ∨ (0 ≤ y ∧ boardCell b x y = true)) := by
  cases hbc : boardCell b x y <;>
    simp [cellOk, hbc, BOARD_WIDTH, BOARD_HEIGHT] <;> omega

theorem rowValid_eq_false_iff (b : List (List Bool)) (px y : Int) (c0 : Nat)
    (cells : List Bool) :
    rowValid b px y c0 cells = false ↔
      ∃ i : Nat, cells.getD i false = true ∧
        cellOk b (px + ((c0 + i : Nat) : Int)) y = false := by
  induction cells generalizing c0 with
  | nil => simp [rowValid]
  | cons cell rest ih =>
    simp only [rowValid, Bool.and_eq_false_iff, Bool.or_eq_false_iff,
      Bool.not_eq_false', ih (c0 + 1)]
    constructor
    · rintro (⟨hc, hok⟩ | ⟨i, hi, hok⟩)
      · exact ⟨0, by simpa using hc, by simpa using hok⟩
      · refine ⟨i + 1, by simpa using hi, ?_⟩
        have : (c0 + (i + 1) : Nat) = (c0 + 1 + i : Nat) := by omega
        rw [this]; exact hok
    · rintro ⟨i, hi, hok⟩
      match i with
      | 0 => exact Or.inl ⟨by simpa using hi, by simpa using hok⟩
      | i + 1 =>
        refine Or.inr ⟨i, by simpa using hi, ?_⟩
        have : (c0 + 1 + i : Nat) = (c0 + (i + 1) : Nat) := by omega
        rw [this]; exact hok

theorem shapeValid_eq_false_iff (b : List (List Bool)) (px py : Int) (r0 : Nat)
    (rows : List (List Bool)) :
    shapeValid b px py r0 rows = false ↔
      ∃ r i : Nat, (rows.getD r []).getD i false = true ∧
        cellOk b (px + (i : Int)) (py + ((r0 + r : Nat) : Int)) = false := by
  induction rows generalizing r0 with
  | nil => simp [shapeValid]
  | cons row rest ih =>
    simp only [shapeValid, Bool.and_eq_false_iff, ih (r0 + 1),
      rowValid_eq_false_iff]
    constructor
    · rintro (⟨i, hi, hok⟩ | ⟨r, i, hi, hok⟩)
      · exact ⟨0, i, by simpa using hi, by simpa using hok⟩
      · refine ⟨r + 1, i, by simpa using hi, ?_⟩
        have : (r0 + (r + 1) : Nat) = (r0 + 1 + r : Nat) := by omega
        rw [this]; exact hok
    · rintro ⟨r, i, hi, hok⟩
      match r with
      | 0 => exact Or.inl ⟨i, by simpa using hi, by simpa using hok⟩
      | r + 1 =>
        refine Or.inr ⟨r, i, by simpa using hi, ?_⟩
        have : (r0 + 1 + r : Nat) = (r0 + (r + 1) : Nat) := by omega
        rw [this]; exact hok

/-- `_is_valid_position` returns `False` exactly when some truthy shape cell
falls out of the left/right/bottom bounds or collides with an occupied board
cell at a row `y ≥ 0`. -/
theorem is_valid_position_eq_false_iff (b : List (List Bool)) (pk : PieceKind)
    (px py : Int) (rot : Nat) :
    is_valid_position b pk px py rot = false ↔
      ∃ r c : Nat, ((getRotShape pk rot).getD r []).getD c false = true ∧
        (px + (c : Int) < 0 ∨ BOARD_WIDTH ≤ px + (c : Int) ∨
         BOARD_HEIGHT ≤ py + (r : Int) ∨
         (0 ≤ py + (r : Int) ∧ boardCell b (px + (c : Int)) (py + (r : Int)) = true)) := by
  rw [is_valid_position, shapeValid_eq_false_iff]
  constructor
  · rintro ⟨r, i, hi, hok⟩
    exact ⟨r, i, hi, by simpa [cellOk_eq_false_iff] using hok⟩
  · rintro ⟨r, c, hc, hbad⟩
    exact ⟨r, c, hc, by simpa [cellOk_eq_false_iff] using hbad⟩

/-! ### Every catalog shape has an occupied cell; termination of the loops -/

/-- Whether a shape grid contains a truthy cell. -/
def shapeHasOccupied (s : List (List Bool)) : Bool :=
  s.any (fun row => row.any id)

theorem shapeHasOccupied_getRotShape (pk : PieceKind) (rot : Nat) :
    shapeHasOccupied (getRotShape pk rot) = true := by
  have hpos : 0 < (rotations pk).length := by cases pk <;> decide
  have h : rot % (rotations pk).length < (rotations pk).length := Nat.mod_lt _ hpos
  rw [getRotShape]
  revert h
  generalize rot % (rotations pk).length = j
  cases pk <;> revert j <;> decide

theorem exists_occupied_of_shapeHasOccupied {s : List (List Bool)}
    (h : shapeHasOccupied s = true) :
    ∃ r c : Nat, (s.getD r []).getD c false = true := by
  rw [shapeHasOccupied, List.any_eq_true] at h
  obtain ⟨row, hrow, hcell⟩ := h
  rw [List.any_eq_true] at hcell
  obtain ⟨cell, hc, hct⟩ := hcell
  obtain ⟨r, hr⟩ := List.mem_iff_get?.mp hrow
  obtain ⟨c, hcg⟩ := List.mem_iff_get?.mp hc
  have h1 : s.getD r [] = row := by rw [List.getD_eq_get?, hr]; rfl
  have h2 : row.getD c false = cell := by rw [List.getD_eq_get?, hcg]; rfl
  refine ⟨r, c, ?_⟩
  rw [h1, h2]
  simpa using hct

theorem getRotShape_occupied (pk : PieceKind) (rot : Nat) :
    ∃ r c : Nat, ((getRotShape pk rot).getD r []).getD c false = true :=
  exists_occupied_of_shapeHasOccupied (shapeHasOccupied_getRotShape pk rot)

/-- At any row at or beyond the bottom of the board the position is invalid,
because each shape contains an occupied cell. -/
theorem invalid_of_row_ge (b : List (List Bool)) (pk : PieceKind) (px : Int)
    (rot : Nat) (y : Int) (hy : (20 : Int) ≤ y) :
    is_valid_position b pk px y rot = false := by
  rw [is_valid_position_eq_false_iff]
  obtain ⟨r, c, hc⟩ := getRotShape_occupied pk rot
  refine ⟨r, c, hc, Or.inr (Or.inr (Or.inl ?_))⟩
  have : (0 : Int) ≤ (r : Int) := Int.ofNat_nonneg r
  simp only [BOARD_HEIGHT]
  omega

/-! ### The ghost / hard-drop loops -/

theorem ghostFindY_spec (b : List (List Bool)) (pk : PieceKind) (px : Int)
    (rot : Nat) (fuel : Nat) :
    ∀ y : Int,
      (∃ k : Nat, k < fuel ∧ is_valid_position b pk px (y + (k : Int)) rot = false) →
      y ≤ ghostFindY b pk px rot y fuel ∧
      is_valid_position b pk px (ghostFindY b pk px rot y fuel) rot = false ∧
      ∀ z : Int, y ≤ z → z < ghostFindY b pk px rot y fuel →
        is_valid_position b pk px z rot = true := by
  induction fuel with
  | zero =>
    rintro y ⟨k, hk, _⟩
    omega
  | succ fuel ih =>
    rintro y ⟨k, hk, hinv⟩
    cases hv : is_valid_position b pk px y rot with
    | true =>
      have hk0 : k ≠ 0 := by
        rintro rfl
        simp only [Nat.cast_zero, add_zero] at hinv
        rw [hinv] at hv
        exact Bool.false_ne_true hv
      obtain ⟨k', rfl⟩ : ∃ k', k = k' + 1 := ⟨k - 1, by omega⟩
      have hinv' : is_valid_position b pk px ((y + 1) + (k' : Int)) rot = false := by
        have : (y + 1) + (k' : Int) = y + ((k' + 1 : Nat) : Int) := by push_cast; ring
        rw [this]; exact hinv
      obtain ⟨h1, h2, h3⟩ := ih (y + 1) ⟨k', by omega, hinv'⟩
      rw [ghostFindY]
      simp only [hv, if_true]
      refine ⟨by omega, h2, ?_⟩
      intro z hz1 hz2
      by_cases hzy : z = y
      · subst hzy; exact hv
      · exact h3 z (by omega) hz2
    | false =>
      rw [ghostFindY]
      simp only [hv, Bool.false_eq_true, if_false]
      exact ⟨le_refl y, by simp [hv], fun z h1 h2 => by omega⟩

theorem ghostFindY_stable (b : List (List Bool)) (pk : PieceKind) (px : Int)
    (rot : Nat) (fuel : Nat) :
    ∀ (m : Nat) (y : Int),
      (∃ k : Nat, k < fuel ∧ is_valid_position b pk px (y + (k : Int)) rot = false) →
      ghostFindY b pk px rot y (fuel + m) = ghostFindY b pk px rot y fuel := by
  induction fuel with
  | zero =>
    rintro m y ⟨k, hk, _⟩
    omega
  | succ fuel ih =>
    rintro m y ⟨k, hk, hinv⟩
    have hstep : fuel + 1 + m = (fuel + m) + 1 := by omega
    rw [hstep, ghostFindY, ghostFindY]
    cases hv : is_valid_position b pk px y rot with
    | true =>
      simp only [hv, if_true]
      have hk0 : k ≠ 0 := by
        rintro rfl
        simp only [Nat.cast_zero, add_zero] at hinv
        rw [hinv] at hv
        exact Bool.false_ne_true hv
      obtain ⟨k', rfl⟩ : ∃ k', k = k' + 1 := ⟨k - 1, by omega⟩
      have hinv' : is_valid_position b pk px ((y + 1) + (k' : Int)) rot = false := by
        have : (y + 1) + (k' : Int) = y + ((k' + 1 : Nat) : Int) := by push_cast; ring
        rw [this]; exact hinv
      exact ih m (y + 1) ⟨k', by omega, hinv'⟩
    | false =>
      simp only [hv, Bool.false_eq_true, if_false]

theorem drop_piece_eq (g : TetrisGame) :
    drop_piece g =
      if is_valid_position g.board g.current_piece g.pos_x (g.pos_y + 1) g.rotation
      then ({ g with pos_y := g.pos_y + 1 }, true) else (g, false) := by
  cases g
  simp [drop_piece, move_piece]

theorem hardDropLoop_stable (g : TetrisGame) (fuel : Nat) :
    ∀ (m : Nat) (g' : TetrisGame) (d : Nat),
      g'.board = g.board → g'.current_piece = g.current_piece →
      g'.pos_x = g.pos_x → g'.rotation = g.rotation →
      (∃ k : Nat, k < fuel ∧
        is_valid_position g'.board g'.current_piece g'.pos_x
          (g'.pos_y + 1 + (k : Int)) g'.rotation = false) →
      hardDropLoop g' d (fuel + m) = hardDropLoop g' d fuel := by
  induction fuel with
  | zero =>
    rintro m g' d _ _ _ _ ⟨k, hk, _⟩
    omega
  | succ fuel ih =>
    rintro m g' d hb hc hx hr ⟨k, hk, hinv⟩
    have hstep : fuel + 1 + m = (fuel + m) + 1 := by omega
    rw [hstep, hardDropLoop, hardDropLoop]
    simp only [drop_piece_eq]
    cases hv : is_valid_position g'.board g'.current_piece g'.pos_x
        (g'.pos_y + 1) g'.rotation with
    | true =>
      simp only [hv, if_true]
      have hk0 : k ≠ 0 := by
        rintro rfl
        simp only [Nat.cast_zero, add_zero] at hinv
        rw [hinv] at hv
        exact Bool.false_ne_true hv
      obtain ⟨k', rfl⟩ : ∃ k', k = k' + 1 := ⟨k - 1, by omega⟩
      have hinv' : is_valid_position g'.board g'.current_piece g'.pos_x
          ((g'.pos_y + 1) + 1 + (k' : Int)) g'.rotation = false := by
        have : (g'.pos_y + 1) + 1 + (k' : Int) = g'.pos_y + 1 + ((k' + 1 : Nat) : Int) := by
          push_cast; ring
        rw [this]; exact hinv
      exact ih m { g' with pos_y := g'.pos_y + 1 } (d + 1)
        (by simpa using hb) (by simpa using hc) (by simpa using hx) (by simpa using hr)
        ⟨k', by omega, by simpa using hinv'⟩
    | false =>
      simp only [hv, Bool.false_eq_true, if_false]

theorem dropFuel_sufficient (g : TetrisGame) :
    ∃ k : Nat, k < dropFuel g ∧
      is_valid_position g.board g.current_piece g.pos_x
        (g.pos_y + 1 + (k : Int)) g.rotation = false := by
  refine ⟨(19 - g.pos_y).toNat, ?_, invalid_of_row_ge _ _ _ _ _ ?_⟩
  · unfold dropFuel
    omega
  · omega

theorem ghostFuel_sufficient (g : TetrisGame) :
    ∃ k : Nat, k < ghostFuel g ∧
      is_valid_position g.board g.current_piece g.pos_x
        (g.pos_y + (k : Int)) g.rotation = false := by
  refine ⟨(20 - g.pos_y).toNat, ?_, invalid_of_row_ge _ _ _ _ _ ?_⟩
  · unfold ghostFuel
    omega
  · omega

/-- C9: the unbounded loops of `hard_drop` and `get_ghost_position` terminate
on every state: the exit condition (an invalid row) is reached below the board
because every shape has an occupied cell, and both loops are unaffected by any
extra step budget beyond the allotted one. -/
theorem C9_loops_terminate (g : TetrisGame) (extra : Nat) :
    (∃ k : Nat, is_valid_position g.board g.current_piece g.pos_x
        (g.pos_y + (k : Int)) g.rotation = false) ∧
    hardDropLoop g 0 (dropFuel g + extra) = hardDropLoop g 0 (dropFuel g) ∧
    ghostFindY g.board g.current_piece g.pos_x g.rotation g.pos_y (ghostFuel g + extra) =
      ghostFindY g.board g.current_piece g.pos_x g.rotation g.pos_y (ghostFuel g) := by
  obtain ⟨k, hk, hinv⟩ := ghostFuel_sufficient g
  refine ⟨⟨k, hinv⟩, ?_, ?_⟩
  · exact hardDropLoop_stable g (dropFuel g) extra g 0 rfl rfl rfl rfl (dropFuel_sufficient g)
  · exact ghostFindY_stable g.board g.current_piece g.pos_x g.rotation
      (ghostFuel g) extra g.pos_y ⟨k, hk, hinv⟩

/-- C7: `get_ghost_position` leaves the state untouched, repeats identically,
returns the current x, and its returned row is the last valid row of the
downward scan from the current row (the row below it is invalid, and every row
from the current one down to it is valid). -/
theorem C7_ghost_characterization (g : TetrisGame) :
    (get_ghost_position g).2 = g ∧
    (get_ghost_position g).1.1 = g.pos_x ∧
    (get_ghost_position ((get_ghost_position g).2)).1 = (get_ghost_position g).1 ∧
    is_valid_position g.board g.current_piece g.pos_x
      ((get_ghost_position g).1.2 + 1) g.rotation = false ∧
    g.pos_y - 1 ≤ (get_ghost_position g).1.2 ∧
    ∀ z : Int, g.pos_y ≤ z → z ≤ (get_ghost_position g).1.2 →
      is_valid_position g.board g.current_piece g.pos_x z g.rotation = true := by
  obtain ⟨h1, h2, h3⟩ := ghostFindY_spec g.board g.current_piece g.pos_x g.rotation
    (ghostFuel g) g.pos_y (ghostFuel_sufficient g)
  simp only [get_ghost_position]
  refine ⟨trivial, trivial, trivial, ?_, by omega, ?_⟩
  · rw [sub_add_cancel]
    exact h2
  · intro z hz1 hz2
    exact h3 z hz1 (by omega)

theorem C7_witness :
    is_valid_position (initGame .O .I).board (initGame .O .I).current_piece
      (initGame .O .I).pos_x 5 (initGame .O .I).rotation = true :=
  (C7_ghost_characterization (initGame .O .I)).2.2.2.2.2 5 (by decide) (by decide)

/-- C4 reference model, written from the spec text: compute the candidate
rotation `(rotation+1) mod rotationCount`; try it at the current offset; if
invalid, commit the first kick `dx` from `[-1, 1, -2, 2]` (in that exact
order, `y` unchanged) that is valid; if all five attempts fail, leave the
state unchanged and report failure. -/
def rotate_piece_specModel (g : TetrisGame) : TetrisGame × Bool :=
  let new_rotation := (g.rotation + 1) % (rotations g.current_piece).length
  if is_valid_position g.board g.current_piece g.pos_x g.pos_y new_rotation then
    ({ g with rotation := new_rotation }, true)
  else
    match ([-1, 1, -2, 2] : List Int).find?
        (fun dx => is_valid_position g.board g.current_piece (g.pos_x + dx) g.pos_y
          new_rotation) with
    | some dx => ({ g with rotation := new_rotation, pos_x := g.pos_x + dx }, true)
    | none => (g, false)

/-- C4: `rotate_piece` implements exactly the spec's candidate-then-kicks
procedure: candidate rotation at the current offset first, then kicks
-1, +1, -2, +2 in that order with `y` unchanged, first valid one committed,
state unchanged and failure returned when all five attempts are invalid. -/
theorem C4_rotate_piece_follows_spec (g : TetrisGame) :
    rotate_piece g = rotate_piece_specModel g := by
  unfold rotate_piece rotate_piece_specModel
  by_cases h0 : is_valid_position g.board g.current_piece g.pos_x g.pos_y
      ((g.rotation + 1) % (rotations g.current_piece).length) = true
  · simp [h0]
  · by_cases h1 : is_valid_position g.board g.current_piece (g.pos_x + (-1)) g.pos_y
        ((g.rotation + 1) % (rotations g.current_piece).length) = true
    · simp [h0, h1, rotateKickLoop, List.find?]
    · by_cases h2 : is_valid_position g.board g.current_piece (g.pos_x + 1) g.pos_y
          ((g.rotation + 1) % (rotations g.current_piece).length) = true
      · simp [h0, h1, h2, rotateKickLoop, List.find?]
      · by_cases h3 : is_valid_position g.board g.current_piece (g.pos_x + (-2)) g.pos_y
            ((g.rotation + 1) % (rotations g.current_piece).length) = true
        · simp [h0, h1, h2, h3, rotateKickLoop, List.find?]
        · by_cases h4 : is_valid_position g.board g.current_piece (g.pos_x + 2) g.pos_y
              ((g.rotation + 1) % (rotations g.current_piece).length) = true
          · simp [h0, h1, h2, h3, h4, rotateKickLoop, List.find?]
          · simp [h0, h1, h2, h3, h4, rotateKickLoop, List.find?]

/-! ### The board keeps its 10 by 20 dimensions (C6) -/

/-- The board is exactly 20 rows of exactly 10 cells. -/
def boardDims (b : List (List Bool)) : Prop :=
  b.length = 20 ∧ ∀ r ∈ b, r.length = 10

theorem boardDims_setBoardCell {b : List (List Bool)} (h : boardDims b) (x y : Int) :
    boardDims (setBoardCell b x y) := by
  obtain ⟨hlen, hrows⟩ := h
  by_cases hy : y.toNat < b.length
  · refine ⟨by simpa [setBoardCell] using hlen, ?_⟩
    intro r hr
    rcases List.mem_or_eq_of_mem_set hr with hr' | rfl
    · exact hrows r hr'
    · rw [List.length_set, List.getD_eq_getElem _ _ hy]
      exact hrows _ (List.getElem_mem hy)
  · rw [setBoardCell, List.set_eq_of_length_le (by omega)]
    exact ⟨hlen, hrows⟩

theorem boardDims_placeRowCells (px y : Int) :
    ∀ (cells : List Bool) (b : List (List Bool)) (c : Nat),
      boardDims b → boardDims (placeRowCells px y b c cells) := by
  intro cells
  induction cells with
  | nil => intro b c h; exact h
  | cons cell rest ih =>
    intro b c h
    rw [placeRowCells]
    apply ih
    split
    · exact boardDims_setBoardCell h _ _
    · exact h

theorem boardDims_placeShapeRows (px py : Int) :
    ∀ (rows : List (List Bool)) (b : List (List Bool)) (r : Nat),
      boardDims b → boardDims (placeShapeRows px py b r rows) := by
  intro rows
  induction rows with
  | nil => intro b r h; exact h
  | cons row rest ih =>
    intro b r h
    rw [placeShapeRows]
    exact ih _ _ (boardDims_placeRowCells px _ row b 0 h)

theorem boardDims_clearLoop :
    ∀ (idxs : List Nat) (b : List (List Bool)),
      (∀ i ∈ idxs, i < 20) → boardDims b →
      boardDims (idxs.foldl (fun bb row => emptyRow :: bb.eraseIdx row) b) := by
  intro idxs
  induction idxs with
  | nil => intro b _ h; exact h
  | cons i rest ih =>
    intro b hidx h
    rw [List.foldl_cons]
    apply ih _ (fun j hj => hidx j (List.mem_cons_of_mem _ hj))
    obtain ⟨hlen, hrows⟩ := h
    constructor
    · have hi : i < 20 := hidx i (List.mem_cons_self i rest)
      simp [List.length_eraseIdx, hlen, hi]
    · intro r hr
      rcases List.mem_cons.mp hr with rfl | hr'
      · simp [emptyRow]
      · exact hrows r (List.mem_of_mem_eraseIdx hr')

theorem boardDims_clear_lines {b : List (List Bool)} (h : boardDims b) :
    boardDims (_clear_lines b).1 := by
  simp only [_clear_lines]
  apply boardDims_clearLoop _ _ _ h
  intro i hi
  rw [List.mem_reverse] at hi
  exact List.mem_range.mp (List.mem_filter.mp hi).1

theorem board_spawn (g : TetrisGame) (np : PieceKind) :
    (_spawn_new_piece g np).1.board = g.board := rfl

theorem board_move (g : TetrisGame) (dx dy : Int) :
    (move_piece g dx dy).1.board = g.board := by
  simp only [move_piece]
  split <;> rfl

theorem board_rotateKickLoop (g : TetrisGame) (nr : Nat) :
    ∀ l : List Int, (rotateKickLoop g nr l).1.board = g.board := by
  intro l
  induction l with
  | nil => rfl
  | cons kx rest ih =>
    rw [rotateKickLoop]
    split
    · rfl
    · exact ih

theorem board_rotate (g : TetrisGame) : (rotate_piece g).1.board = g.board := by
  simp only [rotate_piece]
  split
  · rfl
  · exact board_rotateKickLoop g _ _

theorem board_drop (g : TetrisGame) : (drop_piece g).1.board = g.board := by
  rw [drop_piece_eq]
  split <;> rfl

theorem board_hardDropLoop :
    ∀ (fuel : Nat) (g : TetrisGame) (d : Nat),
      (hardDropLoop g d fuel).1.board = g.board := by
  intro fuel
  induction fuel with
  | zero => intro g d; rfl
  | succ fuel ih =>
    intro g d
    simp only [hardDropLoop]
    split
    · rw [ih, board_drop]
    · rw [board_drop]

theorem board_placeSpawn (g : TetrisGame) (np : PieceKind) (n : Nat) :
    (placeSpawn g np n).1.board = g.board := by
  simp only [placeSpawn]
  split <;> rfl

theorem boardDims_place {g : TetrisGame} (np : PieceKind) (h : boardDims g.board) :
    boardDims (_place_piece g np).1.board := by
  rw [_place_piece]
  dsimp only
  have hb2 : boardDims (_clear_lines (placeShapeRows g.pos_x g.pos_y g.board 0
      (getRotShape g.current_piece g.rotation))).1 :=
    boardDims_clear_lines (boardDims_placeShapeRows g.pos_x g.pos_y _ g.board 0 h)
  split
  · split
    · exact hb2
    · rw [board_placeSpawn]
      exact hb2
  · rw [board_placeSpawn]
    exact hb2

theorem boardDims_hard_drop {g : TetrisGame} (np : PieceKind) (h : boardDims g.board) :
    boardDims (hard_drop g np).1.board := by
  rw [hard_drop]
  dsimp only
  apply boardDims_place
  simpa [board_hardDropLoop] using h

theorem boardDims_hold {g : TetrisGame} (np : PieceKind) (h : boardDims g.board) :
    boardDims (hold_piece g np).1.board := by
  rw [hold_piece]
  dsimp only
  split
  · exact h
  · cases g.held_piece <;> exact h

theorem boardDims_applyOp {g : TetrisGame} (h : boardDims g.board) (op : Op) :
    boardDims (applyOp g op).board := by
  cases op with
  | move dx dy => rw [applyOp, board_move]; exact h
  | rotate => rw [applyOp, board_rotate]; exact h
  | drop => rw [applyOp, board_drop]; exact h
  | hardDrop np => rw [applyOp]; exact boardDims_hard_drop np h
  | hold np => rw [applyOp]; exact boardDims_hold np h
  | ghost => exact h
  | snapshot => exact h

theorem boardDims_initGame (p1 p2 : PieceKind) : boardDims (initGame p1 p2).board := by
  rw [initGame, board_spawn]
  refine ⟨by simp, ?_⟩
  intro r hr
  rw [List.eq_of_mem_replicate hr]
  simp

/-- C6: after any sequence of public operations from a fresh game, the board
is exactly 20 rows of exactly 10 cells each. -/
theorem C6_board_always_10_by_20 (p1 p2 : PieceKind) (ops : List Op) :
    ((ops.foldl applyOp (initGame p1 p2)).board).length = 20 ∧
    ∀ r ∈ (ops.foldl applyOp (initGame p1 p2)).board, r.length = 10 := by
  have key : ∀ (l : List Op) (g : TetrisGame), boardDims g.board →
      boardDims ((l.foldl applyOp g).board) := by
    intro l
    induction l with
    | nil => intro g h; exact h
    | cons op rest ih =>
      intro g h
      rw [List.foldl_cons]
      exact ih _ (boardDims_applyOp h op)
  exact key ops _ (boardDims_initGame p1 p2)

/-! ### Scoring (C8, C3) -/

theorem score_placeSpawn (g : TetrisGame) (np : PieceKind) (n : Nat) :
    (placeSpawn g np n).1.score = g.score := by
  simp only [placeSpawn]
  split <;> rfl

/-- C8: a placement that clears exactly 4 rows adds exactly `1200 * level` to
the score, where `level` is the level before the placement recomputes it;
at level 1 that is 1200 and at level 2 it is 2400. -/
theorem C8_tetris_scores_1200_times_level (g : TetrisGame) (np : PieceKind)
    (h4 : (_clear_lines (placeShapeRows g.pos_x g.pos_y g.board 0
        (getRotShape g.current_piece g.rotation))).2 = 4) :
    (_place_piece g np).1.score = g.score + 1200 * g.level ∧
    (g.level = 1 → (_place_piece g np).1.score = g.score + 1200) ∧
    (g.level = 2 → (_place_piece g np).1.score = g.score + 2400) := by
  have main : (_place_piece g np).1.score = g.score + 1200 * g.level := by
    simp only [_place_piece, h4]
    have : scoringStep 4 g.level = some (1200 * g.level) := by
      simp [scoringStep, scoreTable, Nat.mul_comm]
    simp only [this]
    split
    · rw [score_placeSpawn]
    · omega
  refine ⟨main, fun h1 => ?_, fun h2 => ?_⟩
  · rw [main, h1]
  · rw [main, h2]

/-- A board row lacking only its last cell. -/
def nearFullRow : List Bool :=
  [true, true, true, true, true, true, true, true, true, false]

/-- A completely occupied board row. -/
def fullRow : List Bool := List.replicate 10 true

/-- Level-1 state about to clear four rows: rows 16-19 lack only column 9 and
the vertical I piece sits at `(9, 16)`. -/
def tetrisState : TetrisGame :=
  { board := List.replicate 16 (List.replicate 10 false) ++ List.replicate 4 nearFullRow
    score := 500, lines_cleared := 3, level := 1
    current_piece := .I, next_piece := .O, held_piece := none
    pos_x := 9, pos_y := 16, rotation := 1, can_hold := true }

theorem C8_witness :
    (_place_piece tetrisState .O).1.score = tetrisState.score + 1200 * tetrisState.level :=
  (C8_tetris_scores_1200_times_level tetrisState .O (by decide)).1

/-- Like `tetrisState` but with row 15 already full (full rows can survive a
clear, see the C1 analysis), so the placement completes five full rows. -/
def fiveLineState : TetrisGame :=
  { board := List.replicate 15 (List.replicate 10 false) ++ [fullRow] ++
      List.replicate 4 nearFullRow
    score := 0, lines_cleared := 0, level := 1
    current_piece := .I, next_piece := .O, held_piece := none
    pos_x := 9, pos_y := 16, rotation := 1, can_hold := true }

/-- C3 counterexample: at a cleared-lines count of 5 the scoring step of the
code is not defined and does not clamp: the list lookup fails (`IndexError`),
both in isolation and inside a placement that completes five rows. -/
theorem C3_counterexample_no_clamp_at_5 :
    scoringStep 5 1 = none ∧ scoringStep 5 1 ≠ some (1200 * 1) ∧
    (_clear_lines (placeShapeRows fiveLineState.pos_x fiveLineState.pos_y
        fiveLineState.board 0
        (getRotShape fiveLineState.current_piece fiveLineState.rotation))).2 = 5 ∧
    (_place_piece fiveLineState .O).2 = none := by
  refine ⟨by decide, by decide, by decide, ?_⟩
  simp only [_place_piece]
  have h5 : (_clear_lines (placeShapeRows fiveLineState.pos_x fiveLineState.pos_y
      fiveLineState.board 0
      (getRotShape fiveLineState.current_piece fiveLineState.rotation))).2 = 5 := by decide
  simp only [h5]
  decide

/-- C3 amended: the scoring step is defined only for 0-4 cleared lines, where
it awards the table entry times the level; for 5 or more cleared lines it
raises (`IndexError`) instead of clamping to the 4-line entry. -/
theorem C3_amended_scoring_no_clamp (n level : Nat) :
    (n ≤ 4 → scoringStep n level = some (scoreTable.getD n 0 * level)) ∧
    (4 < n → scoringStep n level = none) := by
  constructor
  · intro h
    interval_cases n <;> simp [scoringStep, scoreTable]
  · intro h
    have hlen : scoreTable.length ≤ n := by simp [scoreTable]; omega
    have hnone : scoreTable.get? n = none := List.get?_eq_none.mpr hlen
    simp only [scoringStep, hnone, Option.map_none']

theorem C3_amended_witness :
    scoringStep 2 3 = some (scoreTable.getD 2 0 * 3) ∧ scoringStep 7 1 = none :=
  ⟨(C3_amended_scoring_no_clamp 2 3).1 (by decide),
   (C3_amended_scoring_no_clamp 7 1).2 (by decide)⟩

/-! ### Multi-row clears (C1), post-game-over calls (C2), hold (C10), validity (C5) -/

/-- Partial row number `i`: the binary encoding of `i` in the first cells
(distinct for each `i < 20`, never full). -/
def prow (i : Nat) : List Bool :=
  (List.range 10).map (fun j => decide (i / 2 ^ j % 2 = 1))

/-- A board whose rows 5 and 7 are full and whose other rows are the partial
rows `prow i`. -/
def twoFullRowsBoard : List (List Bool) :=
  (List.range 20).map (fun i => if i = 5 ∨ i = 7 then fullRow else prow i)

/-- C1: on the board with exactly rows 5 and 7 full, `_clear_lines` does
return 2 and rows 0 and 1 do end up empty, but the loop deletes the rows at
the recorded indices after having already reinserted an empty top row, so it
deletes the partial row 4 (which disappears from the board) and leaves the
full row 5 on the board (at index 6, where the claim expects old row 4). -/
theorem C1_clear_lines_misclears_rows_5_and_7 :
    (_clear_lines twoFullRowsBoard).2 = 2 ∧
    rowFull (twoFullRowsBoard.getD 5 []) = true ∧
    rowFull (twoFullRowsBoard.getD 7 []) = true ∧
    ((List.range 20).all (fun i =>
      decide (i = 5) || decide (i = 7) || !rowFull (twoFullRowsBoard.getD i []))) = true ∧
    (_clear_lines twoFullRowsBoard).1.getD 0 [] = emptyRow ∧
    (_clear_lines twoFullRowsBoard).1.getD 1 [] = emptyRow ∧
    rowFull ((_clear_lines twoFullRowsBoard).1.getD 6 []) = true ∧
    prow 4 ∉ (_clear_lines twoFullRowsBoard).1 ∧
    (_clear_lines twoFullRowsBoard).1.getD 6 [] ≠ prow 4 := by decide

/-- A state from which spawning is doomed: cells (5,0) and (4,1) are occupied,
so the O piece about to be promoted from the lookahead collides at its spawn
offset (4,0). -/
def blockedSpawnPre : TetrisGame :=
  { board := [false, false, false, false, false, true, false, false, false, false] ::
      [false, false, false, false, true, false, false, false, false, false] ::
      List.replicate 18 (List.replicate 10 false)
    score := 37, lines_cleared := 3, level := 1
    current_piece := .T, next_piece := .O, held_piece := none
    pos_x := 3, pos_y := 17, rotation := 0, can_hold := false }

/-- The state right after the spawn that reported the game-over signal. -/
def gameOverState : TetrisGame := (_spawn_new_piece blockedSpawnPre .O).1

/-- C2: the engine has no game-over latch.  From the state in which the spawn
path just reported game over, `hard_drop` does return the distinguished signal
`-1` again, but it is not a no-op: it writes the overlapping piece into the
board, corrupting state. -/
theorem C2_post_game_over_hard_drop_corrupts :
    (_spawn_new_piece blockedSpawnPre .O).2 = false ∧
    (hard_drop gameOverState .O).2 = some (-1) ∧
    (hard_drop gameOverState .O).1.board ≠ gameOverState.board := by decide

/-- A state in which a hold will swap in the held O piece at spawn offset
(4,0) even though board cell (4,0) is occupied. -/
def holdBlockedState : TetrisGame :=
  { board := [false, false, false, false, true, false, false, false, false, false] ::
      List.replicate 19 (List.replicate 10 false)
    score := 0, lines_cleared := 0, level := 1
    current_piece := .T, next_piece := .S, held_piece := some .O
    pos_x := 0, pos_y := 10, rotation := 0, can_hold := true }

/-- C10: `hold_piece` succeeds whenever `can_hold` is set and never validates
the recomputed spawn position, while `_spawn_new_piece` reports exactly the
validity of the spawn position; concretely, at `holdBlockedState` the hold
succeeds yet leaves the current piece overlapping an occupied cell, with no
failure and no game-over signal. -/
theorem C10_hold_skips_validation (g : TetrisGame) (np : PieceKind)
    (hcan : g.can_hold = true) :
    (hold_piece g np).2 = true ∧
    (∀ (g' : TetrisGame) (np' : PieceKind),
      (_spawn_new_piece g' np').2 =
        is_valid_position (_spawn_new_piece g' np').1.board
          (_spawn_new_piece g' np').1.current_piece (_spawn_new_piece g' np').1.pos_x
          (_spawn_new_piece g' np').1.pos_y (_spawn_new_piece g' np').1.rotation) ∧
    (hold_piece holdBlockedState .I).2 = true ∧
    is_valid_position (hold_piece holdBlockedState .I).1.board
      (hold_piece holdBlockedState .I).1.current_piece
      (hold_piece holdBlockedState .I).1.pos_x
      (hold_piece holdBlockedState .I).1.pos_y
      (hold_piece holdBlockedState .I).1.rotation = false := by
  refine ⟨?_, fun g' np' => rfl, by decide, by decide⟩
  simp only [hold_piece, hcan]
  cases g.held_piece <;> rfl

theorem C10_witness :
    (hold_piece holdBlockedState .I).2 = true :=
  (C10_hold_skips_validation holdBlockedState .I (by decide)).1

/-- C5: `_is_valid_position` returns False exactly when some truthy cell of
the current rotation's shape is out of bounds (`x < 0`, `x ≥ 10`, `y ≥ 20`) or
collides with an occupied board cell at `y ≥ 0`; cells with `y < 0` are never
checked against the board, and the function (a pure read in the source)
mutates nothing. -/
theorem C5_is_valid_position_characterization (b : List (List Bool))
    (pk : PieceKind) (px py : Int) (rot : Nat) :
    is_valid_position b pk px py rot = false ↔
      ∃ r c : Nat, ((getRotShape pk rot).getD r []).getD c false = true ∧
        (px + (c : Int) < 0 ∨ BOARD_WIDTH ≤ px + (c : Int) ∨
         BOARD_HEIGHT ≤ py + (r : Int) ∨
         (0 ≤ py + (r : Int) ∧ boardCell b (px + (c : Int)) (py + (r : Int)) = true)) :=
  is_valid_position_eq_false_iff b pk px py rot

theorem C5_witness :
    is_valid_position (List.replicate 20 (List.replicate 10 false)) .O 9 0 0 = false :=
  (C5_is_valid_position_characterization _ .O 9 0 0).mpr
    ⟨0, 1, by decide, Or.inr (Or.inl (by decide))⟩
